import Mathlib

/-!
Shallow embedding of the actix-session-sqlite session store
(src/src/lib.rs and src/src/gradual_transition_shim.rs) and proofs about it.

Modelling conventions:
* Machine integers are Nat / Int with explicit range side conditions
  (i64 / u64 ranges appear as hypotheses where they matter).
* Keys are modelled at two levels.  The source's in-memory key struct
  holds a chrono DateTime with nanosecond precision; it is UuidSrc below
  (timestamp in integer nanoseconds).  Its string form carries only whole
  milliseconds (chrono's ts_milliseconds), so the database rows and every
  session key string the store returns or receives denote the
  millisecond-normalized form, which is Uuid below (timestamp in integer
  milliseconds); the store-level operations act on that form.
* The SQLite database is a list of rows; each operation is a pure function
  from state to (state, result), mirroring each method's SQL statements.
* Fallible operations return Except paired with the post-state.
-/

namespace ActixSessionSqlite

/-! ## Decimal digit printing, used by the key codec's serialisation -/

/-- Character for the decimal digit d (d < 10), i.e. code point 48 + d. -/
def digitChar (d : Nat) : Char := Char.ofNat (48 + d)

/-- Accumulator-style decimal printer: prepends the digits of n to acc.
The first argument is structural fuel; any fuel ≥ n computes the digits. -/
def natToDigitsGo : Nat → Nat → List Char → List Char
  | 0, _, acc => acc
  | fuel + 1, n, acc =>
    if n = 0 then acc else natToDigitsGo fuel (n / 10) (digitChar (n % 10) :: acc)

/-- Decimal representation of a natural number, as serde_json prints a u64. -/
def natRepr (n : Nat) : List Char :=
  if n = 0 then ['0'] else natToDigitsGo n n []

/-- Decimal representation of an integer, as serde_json prints an i64. -/
def intRepr (i : Int) : List Char :=
  if i < 0 then '-' :: natRepr i.natAbs else natRepr i.toNat

/-! ## Key codec (struct Uuid in src/src/lib.rs)

The Rust struct holds a chrono timestamp (serialised as integer
milliseconds under field name "t") and a random u64 (field name "r").
TryFrom<&str> is serde_json::from_str, From<Uuid> for String is
serde_json::to_string. -/

/-- Millisecond-normalized form of a key of src/src/lib.rs: exactly the
information the codec's string form carries (chrono's ts_milliseconds
serialises whole milliseconds), hence what every stored row id and every
session key string denotes.  The source's in-memory struct additionally
carries sub-millisecond timestamp precision; that level is UuidSrc below,
and it only ever reaches the store through this normalized form. -/
structure Uuid where
  timestamp : Int
  random : Nat
deriving DecidableEq, Repr

/-- String form produced by From<Uuid> for String, i.e.
serde_json::to_string: the object with field "t" then field "r",
no whitespace, decimal numbers. -/
def uuidToStringChars (u : Uuid) : List Char :=
  '\x7b' :: '"' :: 't' :: '"' :: ':' ::
    (intRepr u.timestamp ++ ',' :: '"' :: 'r' :: '"' :: ':' ::
      (natRepr u.random ++ ['\x7d']))

/-- String form of a key (From<Uuid> for String in src/src/lib.rs). -/
def uuidToString (u : Uuid) : String := String.mk (uuidToStringChars u)

/-! Parser side: TryFrom<&str> for Uuid is serde_json::from_str::<Uuid>.
The model below accepts a JSON object holding exactly the two renamed
fields "t" (integer in i64 range) and "r" (integer in u64 range), in either
order, with JSON whitespace in the positions serde_json allows, rejecting
leading zeros, floats, duplicate or missing fields, and requiring end of
input after the closing brace.  Inputs serde_json would reject for other
reasons (escape sequences in keys, unknown extra fields, nested values) are
modelled as parse failures as well; every input exercised by the claims is
decided at a point where the model and serde_json agree. -/

/-- JSON whitespace accepted by serde_json between tokens. -/
def isWsChar (c : Char) : Bool := c == ' ' || c == '\t' || c == '\n' || c == '\r'

/-- Skip JSON whitespace. -/
def skipWs (cs : List Char) : List Char := cs.dropWhile isWsChar

/-- Numeric value of a list of decimal digit characters. -/
def digitsVal (ds : List Char) : Nat :=
  ds.foldl (fun a c => 10 * a + (c.toNat - 48)) 0

/-- Read a JSON unsigned integer literal: a maximal nonempty run of digits
with no leading zero; returns its value and the rest of the input. -/
def readNat (cs : List Char) : Option (Nat × List Char) :=
  let ds := cs.takeWhile Char.isDigit
  if ds.isEmpty then none
  else if ds.head? == some '0' && ds.length != 1 then none
  else some (digitsVal ds, cs.dropWhile Char.isDigit)

/-- After the digits of an integer, serde_json rejects a fraction or an
exponent (the value would be a float, not an i64/u64). -/
def numTermOk (cs : List Char) : Bool :=
  match cs with
  | c :: _ => !(c == '.' || c == 'e' || c == 'E')
  | [] => true

/-- Read the value of field "t": an optionally signed integer within the
i64 range (chrono's ts_milliseconds deserialises from i64). -/
def readTVal (cs : List Char) : Option (Int × List Char) :=
  if (skipWs cs).head? = some '-' then
    match readNat (skipWs cs).tail with
    | some (v, rest') =>
      if numTermOk rest' && decide (v ≤ 2 ^ 63) then some (-(v : Int), rest') else none
    | none => none
  else
    match readNat (skipWs cs) with
    | some (v, rest') =>
      if numTermOk rest' && decide (v < 2 ^ 63) then some ((v : Int), rest') else none
    | none => none

/-- Read the value of field "r": an unsigned integer within the u64 range. -/
def readRVal (cs : List Char) : Option (Nat × List Char) :=
  match readNat (skipWs cs) with
  | some (v, rest') =>
    if numTermOk rest' && decide (v < 2 ^ 64) then some (v, rest') else none
  | none => none

/-- Read the characters of an object key up to the closing quote.
Escape sequences are modelled as a parse failure (no key that the codec
or the claims exercise contains one). -/
def readKeyChars : List Char → Option (List Char × List Char)
  | [] => none
  | c :: rest =>
    if c = '"' then some ([], rest)
    else if c = '\\' then none
    else
      match readKeyChars rest with
      | some (k, r) => some (c :: k, r)
      | none => none

/-- Read a quoted object key, allowing leading whitespace. -/
def readFieldKey (cs : List Char) : Option (List Char × List Char) :=
  match skipWs cs with
  | '"' :: rest => readKeyChars rest
  | _ => none

/-- Read the colon separating a key from its value. -/
def readColon (cs : List Char) : Option (List Char) :=
  match skipWs cs with
  | ':' :: rest => some rest
  | _ => none

/-- One parsed field of the Uuid object: t with its value, or r with its
value. -/
inductive FieldVal where
  | t (v : Int)
  | r (v : Nat)
deriving DecidableEq

/-- Read one field of the object: key "t" or key "r" with its typed value.
Any other key is a failure (serde's field set after rename is exactly
t and r; the unknown-field case is modelled as rejection). -/
def readField (cs : List Char) : Option (FieldVal × List Char) :=
  match readFieldKey cs with
  | none => none
  | some (key, rest) =>
    match readColon rest with
    | none => none
    | some rest2 =>
      if key = ['t'] then
        match readTVal rest2 with
        | some (v, rest3) => some (.t v, rest3)
        | none => none
      else if key = ['r'] then
        match readRVal rest2 with
        | some (v, rest3) => some (.r v, rest3)
        | none => none
      else none

/-- Parse a key as serde_json::from_str::<Uuid> does: a JSON object with
the two fields t and r in either order, then end of input (modulo
whitespace).  A duplicated field is rejected. -/
def uuidParseChars (cs : List Char) : Option Uuid :=
  match skipWs cs with
  | '\x7b' :: rest =>
    match readField rest with
    | none => none
    | some (f1, rest1) =>
      match skipWs rest1 with
      | ',' :: rest2 =>
        match readField rest2 with
        | none => none
        | some (f2, rest3) =>
          match skipWs rest3 with
          | '\x7d' :: rest4 =>
            if (skipWs rest4).isEmpty then
              match f1, f2 with
              | .t tv, .r rv => some ⟨tv, rv⟩
              | .r rv, .t tv => some ⟨tv, rv⟩
              | _, _ => none
            else none
          | _ => none
      | _ => none
  | _ => none

/-- TryFrom<&str> for Uuid in src/src/lib.rs (serde_json::from_str). -/
def uuidParse (s : String) : Option Uuid := uuidParseChars s.data

/-! ## The key struct at the source's full precision

struct Uuid of src/src/lib.rs holds timestamp: DateTime<Utc>, which
chrono represents to nanosecond precision (Uuid::new() uses Utc::now()),
and the derived PartialEq compares exact instants.  Serialisation goes
through ts_milliseconds, which keeps only whole milliseconds, so printing
and re-parsing truncates the timestamp. -/

/-- In-memory key struct at the source's precision: the timestamp as
integer nanoseconds since the epoch. -/
structure UuidSrc where
  timestampNanos : Int
  random : Nat
deriving DecidableEq, Repr

/-- timestamp_millis() of the key's DateTime: whole milliseconds, floor
division (chrono stores seconds plus a non-negative sub-second part, so
the millisecond count rounds toward minus infinity). -/
def uuidSrcMillis (u : UuidSrc) : Int := u.timestampNanos / 1000000

/-- From<Uuid> for String at the source's precision: serde_json::to_string
writes the timestamp via ts_milliseconds, truncating to milliseconds. -/
def uuidSrcToString (u : UuidSrc) : String := uuidToString ⟨uuidSrcMillis u, u.random⟩

/-- TryFrom<&str> at the source's precision: ts_milliseconds reads the
integer back as milliseconds, reconstructing a DateTime whose
sub-millisecond part is zero. -/
def uuidSrcParse (s : String) : Option UuidSrc :=
  (uuidParse s).map (fun u => ⟨u.timestamp * 1000000, u.random⟩)

/-! ## Durable store (SqliteSessionStore in src/src/lib.rs)

The sessions table is a list of rows.  Modelled from the spec: the schema
itself lives in the repository's migrations directory, which is not under
src/; per spec section 6 the table has columns id (primary key), created,
expires, data, so an insert of an id already present fails with a
constraint violation.  The data column stores the serialised session map;
serde_json::to_value / from_value on a map of strings is lossless, so the
model stores the map itself. -/

/-- SessionState = HashMap<String, String>, modelled as an association
list in the order the serialiser would visit it. -/
abbrev SessState := List (String × String)

/-- One row of the sessions table (struct DbSessionRow), with created and
expires as integer milliseconds. -/
structure SessionRow where
  id : Uuid
  created : Int
  expires : Int
  data : SessState
deriving DecidableEq

/-- Database state: the rows of the sessions table. -/
abbrev DbState := List SessionRow

/-- Row with the given id, as fetched by select ... where id = $1
(at most one row can match: id is the primary key). -/
def dbFind (s : DbState) (u : Uuid) : Option SessionRow :=
  s.find? (fun r => r.id == u)

/-- Effect of delete from sessions where id = $1. -/
def dbDeleteId (s : DbState) (u : Uuid) : DbState :=
  s.filter (fun r => !(r.id == u))

/-- Error cases of SessionStore::load (actix LoadError): the key fails to
decode, the stored blob fails to deserialise, or a wrapped other error
(the constructor carries the legacy store's message when the shim
delegates to it). -/
inductive LoadErr where
  | keyDecode
  | deserialization
  | other (msg : String)
deriving DecidableEq

/-- SessionStore::load for SqliteSessionStore (src/src/lib.rs lines
116-131): decode the key, fetch the row; a row whose expires is strictly
before now is deleted inside the same transaction and None is returned;
otherwise the stored data (or None when no row) is returned. -/
def load (s : DbState) (now : Int) (key : String) :
    DbState × Except LoadErr (Option SessState) :=
  match uuidParse key with
  | none => (s, .error .keyDecode)
  | some u =>
    match dbFind s u with
    | some row =>
      if row.expires < now then (dbDeleteId s u, .ok none)
      else (s, .ok (some row.data))
    | none => (s, .ok none)

/-- Error case of SessionStore::save: the insert violates the primary-key
constraint (the freshly generated id already exists). -/
inductive SaveErr where
  | uniqueViolation
deriving DecidableEq

/-- SessionStore::save (src/src/lib.rs lines 134-144): generate a new key
from the current time and a random u64 (Uuid::new), insert a row with
created = now and expires = now + ttl, and return the new key's string
form.  now and rand stand for the Utc::now() and rand::random() calls. -/
def save (s : DbState) (now : Int) (rand : Nat) (state : SessState) (ttl : Nat) :
    DbState × Except SaveErr String :=
  let u : Uuid := ⟨now, rand⟩
  match dbFind s u with
  | some _ => (s, .error .uniqueViolation)
  | none => (s ++ [⟨u, now, now + (ttl : Int), state⟩], .ok (uuidToString u))

/-- Error cases of SessionStore::update, covering both the primary store's
paths and the shim's legacy-migration paths (all are UpdateError values in
the source; the constructor names follow the spec's error kinds). -/
inductive UpdateErr where
  | keyDecode
  | secondaryLoad (e : LoadErr)
  | migrationInconsistency
  | saveFailed (e : SaveErr)
deriving DecidableEq

/-- SessionStore::update (src/src/lib.rs lines 147-155): decode the key,
overwrite data and expires on the matching row (a no-op when no row
matches), and return the same key unchanged. -/
def update (s : DbState) (now : Int) (key : String) (state : SessState) (ttl : Nat) :
    DbState × Except UpdateErr String :=
  match uuidParse key with
  | none => (s, .error .keyDecode)
  | some u =>
    (s.map (fun r => if r.id == u then { r with data := state, expires := now + (ttl : Int) } else r),
      .ok key)

/-- SessionStore::update_ttl (src/src/lib.rs lines 158-165): decode the
key and overwrite expires on the matching row (no-op when absent). -/
def updateTtl (s : DbState) (now : Int) (key : String) (ttl : Nat) :
    DbState × Except UpdateErr Unit :=
  match uuidParse key with
  | none => (s, .error .keyDecode)
  | some u =>
    (s.map (fun r => if r.id == u then { r with expires := now + (ttl : Int) } else r), .ok ())

/-- SessionStore::delete (src/src/lib.rs lines 168-173): decode the key
and delete the matching row (no-op when absent). -/
def delete (s : DbState) (key : String) : DbState × Except UpdateErr Unit :=
  match uuidParse key with
  | none => (s, .error .keyDecode)
  | some u => (dbDeleteId s u, .ok ())

/-! ## clean_database (src/src/lib.rs lines 105-111)

The sweep runs, in one transaction,
  delete from sessions where strftime('%s', expires) < unixepoch()
followed by
  select changes() as ... from sessions   (fetch_one).
strftime returns TEXT and unixepoch returns INTEGER, and both are bare
function calls carrying no type affinity, so SQLite compares the two by
storage class, under which every INTEGER value orders strictly below every
TEXT value; the predicate is therefore false on every row.  fetch_one on
the changes() query fails with RowNotFound when the sessions table is
empty, because the query yields one row per sessions row. -/

/-- SQLite value of a comparison operand: storage class INTEGER or TEXT. -/
inductive SqlVal where
  | int (i : Int)
  | text (t : String)

/-- SQLite ordering of two affinity-free operands: within a storage class
the native order, across storage classes INTEGER < TEXT always. -/
def sqlLt : SqlVal → SqlVal → Bool
  | .int a, .int b => decide (a < b)
  | .text a, .text b => decide (a < b)
  | .int _, .text _ => true
  | .text _, .int _ => false

/-- strftime('%s', expires): the row's expiry as whole seconds, printed as
a TEXT value. -/
def strftimeSecondsText (ms : Int) : SqlVal :=
  .text (String.mk (intRepr (Int.fdiv ms 1000)))

/-- unixepoch(): the current time as whole seconds, an INTEGER value. -/
def unixepochVal (now : Int) : SqlVal := .int (Int.fdiv now 1000)

/-- Error case of clean_database: fetch_one finds no row (empty table). -/
inductive CleanErr where
  | rowNotFound
deriving DecidableEq

/-- SqliteSessionStore::clean_database (src/src/lib.rs lines 105-111):
delete the rows matching the comparison above, then read changes() with
fetch_one from the remaining table; on RowNotFound the transaction is
dropped without commit, so the state reverts. -/
def cleanDatabase (s : DbState) (now : Int) : DbState × Except CleanErr Nat :=
  let keep := s.filter (fun r => !(sqlLt (strftimeSecondsText r.expires) (unixepochVal now)))
  if keep.isEmpty then (s, .error .rowNotFound)
  else (keep, .ok (s.length - keep.length))

/-! ## Migration shim (src/src/gradual_transition_shim.rs)

CookieToSqliteSessionStoreShim holds the primary SqliteSessionStore and a
secondary legacy store.  Every operation first tries the primary key
codec (StoreSessionKey, the Uuid codec of src/src/lib.rs) on the incoming
key and routes on the result.  The secondary store is the external
actix-session CookieSessionStore, an external collaborator satisfying the
same Store contract (spec section 6); the shim only ever calls its load,
so the model abstracts the secondary store as its load function. -/

/-- Secondary (legacy) store as seen by the shim: only its load is ever
called on the legacy path. -/
structure SecondaryStore where
  load : String → Except LoadErr (Option SessState)

/-- Shim load (src/src/gradual_transition_shim.rs lines 20-27): delegate
to the primary store when the key parses, otherwise to the secondary. -/
def shimLoad (sec : SecondaryStore) (s : DbState) (now : Int) (key : String) :
    DbState × Except LoadErr (Option SessState) :=
  match uuidParse key with
  | some _ => load s now key
  | none => (s, sec.load key)

/-- Shim save (lines 29-31): always the primary store's save. -/
def shimSave (s : DbState) (now : Int) (rand : Nat) (state : SessState) (ttl : Nat) :
    DbState × Except SaveErr String :=
  save s now rand state ttl

/-- Legacy branch of shim update (lines 36-43): verify the record exists
in the secondary store; a load failure propagates, an absent record is the
hard migration-inconsistency failure, and an existing record is migrated
by saving the caller-supplied new state as a fresh primary record. -/
def legacyMigrate (sec : SecondaryStore) (s : DbState) (now : Int) (rand : Nat)
    (key : String) (state : SessState) (ttl : Nat) : DbState × Except UpdateErr String :=
  match sec.load key with
  | .error e => (s, .error (.secondaryLoad e))
  | .ok none => (s, .error .migrationInconsistency)
  | .ok (some _) =>
    match save s now rand state ttl with
    | (s', .ok k) => (s', .ok k)
    | (s', .error e) => (s', .error (.saveFailed e))

/-- Shim update (lines 33-45): delegate to the primary store when the key
parses, otherwise migrate from the legacy store. -/
def shimUpdate (sec : SecondaryStore) (s : DbState) (now : Int) (rand : Nat)
    (key : String) (state : SessState) (ttl : Nat) : DbState × Except UpdateErr String :=
  match uuidParse key with
  | some _ => update s now key state ttl
  | none => legacyMigrate sec s now rand key state ttl

/-- Shim update_ttl (lines 47-53): delegate when the key parses, otherwise
a successful no-op. -/
def shimUpdateTtl (_sec : SecondaryStore) (s : DbState) (now : Int) (key : String)
    (ttl : Nat) : DbState × Except UpdateErr Unit :=
  match uuidParse key with
  | some _ => updateTtl s now key ttl
  | none => (s, .ok ())

/-- Shim delete (lines 55-60): delegate when the key parses, otherwise a
successful no-op. -/
def shimDelete (_sec : SecondaryStore) (s : DbState) (key : String) :
    DbState × Except UpdateErr Unit :=
  match uuidParse key with
  | some _ => delete s key
  | none => (s, .ok ())

/-! ## Key shape of the secondary store's save

Modelled from the spec: the secondary store is the external actix-session
CookieSessionStore (an external collaborator, spec section 6, not under
src/).  Its save serialises the session state itself into the returned
key: the key is serde_json::to_string of the string-to-string map, a JSON
object whose values are all JSON strings. -/

/-- serde_json's escaping of one character inside a JSON string literal:
quote and backslash get a backslash escape, control characters get their
short escape or a unicode escape, and every other character is itself. -/
def escChar (c : Char) : List Char :=
  if c = '"' then ['\\', '"']
  else if c = '\\' then ['\\', '\\']
  else if c.toNat < 32 then
    if c = '\x08' then ['\\', 'b']
    else if c = '\t' then ['\\', 't']
    else if c = '\n' then ['\\', 'n']
    else if c = '\x0c' then ['\\', 'f']
    else if c = '\r' then ['\\', 'r']
    else
      '\\' :: 'u' :: '0' :: '0' ::
        (if c.toNat / 16 < 10 then digitChar (c.toNat / 16) else Char.ofNat (87 + c.toNat / 16)) ::
        [if c.toNat % 16 < 10 then digitChar (c.toNat % 16) else Char.ofNat (87 + c.toNat % 16)]
  else [c]

/-- Escape every character of a string body. -/
def escList (cs : List Char) : List Char := (cs.map escChar).flatten

/-- JSON string literal for s. -/
def jsonStringLit (s : String) : List Char := '"' :: (escList s.data ++ ['"'])

/-- One key/value pair of the serialised map. -/
def cookiePair (p : String × String) : List Char :=
  jsonStringLit p.1 ++ ':' :: jsonStringLit p.2

/-- Key produced by CookieSessionStore::save for a session state: the JSON
object text of the map. -/
def cookieSaveChars (m : SessState) : List Char :=
  '\x7b' :: (List.intercalate [','] (m.map cookiePair) ++ ['\x7d'])

/-- String form of the cookie store's key for a session state. -/
def cookieSave (m : SessState) : String := String.mk (cookieSaveChars m)

/-! ## Sequences of saves, for the uniqueness property -/

/-- Run a sequence of save calls; each list entry carries the Utc::now()
and rand::random() observed by that call, the state and the ttl.  The
result collects the final database and the keys of the successful calls. -/
def runSaves : DbState → List (Int × Nat × SessState × Nat) → DbState × List String
  | s, [] => (s, [])
  | s, (now, rand, m, ttl) :: rest =>
    match save s now rand m ttl with
    | (_, .error _) => runSaves s rest
    | (s', .ok k) =>
      let res := runSaves s' rest
      (res.1, k :: res.2)

/-! ## Auxiliary instances -/

instance {ε α : Type} [DecidableEq ε] [DecidableEq α] : DecidableEq (Except ε α) := fun a b =>
  match a, b with
  | .ok x, .ok y =>
    if h : x = y then isTrue (by rw [h]) else isFalse (by intro hc; cases hc; exact h rfl)
  | .error x, .error y =>
    if h : x = y then isTrue (by rw [h]) else isFalse (by intro hc; cases hc; exact h rfl)
  | .ok _, .error _ => isFalse (by intro hc; cases hc)
  | .error _, .ok _ => isFalse (by intro hc; cases hc)

/-! ## Lemmas about decimal printing -/

theorem digitChar_facts : ∀ d : Nat, d < 10 →
    (digitChar d).toNat = 48 + d ∧ Char.isDigit (digitChar d) = true ∧
    isWsChar (digitChar d) = false ∧ digitChar d ≠ '-' ∧ digitChar d ≠ '"' ∧
    (d ≠ 0 → digitChar d ≠ '0') := by
  decide

theorem natToDigitsGo_zero (f : Nat) (acc : List Char) : natToDigitsGo f 0 acc = acc := by
  cases f <;> simp [natToDigitsGo]

theorem natToDigitsGo_acc (f : Nat) : ∀ n acc, n ≤ f →
    natToDigitsGo f n acc = natToDigitsGo f n [] ++ acc := by
  induction f with
  | zero => intro n acc h; simp [natToDigitsGo]
  | succ f ih =>
    intro n acc h
    by_cases hn : n = 0
    · subst hn; simp [natToDigitsGo]
    · have hle : n / 10 ≤ f := by omega
      simp only [natToDigitsGo, if_neg hn]
      rw [ih (n / 10) (digitChar (n % 10) :: acc) hle,
        ih (n / 10) [digitChar (n % 10)] hle, List.append_assoc]
      simp

theorem natToDigitsGo_mem (f : Nat) : ∀ n acc c, c ∈ natToDigitsGo f n acc →
    c ∈ acc ∨ ∃ d, d < 10 ∧ c = digitChar d := by
  induction f with
  | zero => intro n acc c h; exact Or.inl h
  | succ f ih =>
    intro n acc c h
    by_cases hn : n = 0
    · subst hn; simp [natToDigitsGo] at h; exact Or.inl h
    · simp only [natToDigitsGo, if_neg hn] at h
      rcases ih (n / 10) (digitChar (n % 10) :: acc) c h with hmem | hd
      · rcases List.mem_cons.mp hmem with hc | hc
        · exact Or.inr ⟨n % 10, Nat.mod_lt _ (by norm_num), hc⟩
        · exact Or.inl hc
      · exact Or.inr hd

theorem natToDigitsGo_head (f : Nat) : ∀ n, n ≠ 0 → n ≤ f →
    ∃ d tail, d < 10 ∧ d ≠ 0 ∧ natToDigitsGo f n [] = digitChar d :: tail := by
  induction f with
  | zero => intro n hn h; omega
  | succ f ih =>
    intro n hn h
    simp only [natToDigitsGo, if_neg hn]
    by_cases h10 : n / 10 = 0
    · have hlt : n < 10 := by omega
      rw [h10, natToDigitsGo_zero]
      exact ⟨n % 10, [], Nat.mod_lt _ (by norm_num), by omega, rfl⟩
    · obtain ⟨d, tail, hd10, hd0, heq⟩ := ih (n / 10) h10 (by omega)
      refine ⟨d, tail ++ [digitChar (n % 10)], hd10, hd0, ?_⟩
      rw [natToDigitsGo_acc f (n / 10) _ (by omega), heq]
      simp

theorem digitsVal_append_last (xs : List Char) (c : Char) :
    digitsVal (xs ++ [c]) = 10 * digitsVal xs + (c.toNat - 48) := by
  simp [digitsVal, List.foldl_append]

theorem natToDigitsGo_val (f : Nat) : ∀ n, n ≤ f → digitsVal (natToDigitsGo f n []) = n := by
  induction f with
  | zero =>
    intro n h
    have : n = 0 := by omega
    subst this; simp [natToDigitsGo, digitsVal]
  | succ f ih =>
    intro n h
    by_cases hn : n = 0
    · subst hn; simp [natToDigitsGo_zero, digitsVal]
    · simp only [natToDigitsGo, if_neg hn]
      rw [natToDigitsGo_acc f (n / 10) _ (by omega), digitsVal_append_last,
        ih (n / 10) (by omega), (digitChar_facts (n % 10) (Nat.mod_lt _ (by norm_num))).1]
      omega

theorem natRepr_all_digits (n : Nat) : ∀ c ∈ natRepr n, Char.isDigit c = true := by
  intro c hc
  unfold natRepr at hc
  by_cases hn : n = 0
  · simp [hn] at hc; subst hc; decide
  · rw [if_neg hn] at hc
    rcases natToDigitsGo_mem n n [] c hc with h | ⟨d, hd, rfl⟩
    · simp at h
    · exact (digitChar_facts d hd).2.1

theorem natRepr_shape (n : Nat) :
    natRepr n = ['0'] ∨ ∃ d tail, d < 10 ∧ d ≠ 0 ∧ natRepr n = digitChar d :: tail := by
  by_cases hn : n = 0
  · exact Or.inl (by simp [natRepr, hn])
  · obtain ⟨d, tail, h10, h0, heq⟩ := natToDigitsGo_head n n hn le_rfl
    exact Or.inr ⟨d, tail, h10, h0, by rw [natRepr, if_neg hn, heq]⟩

theorem natRepr_ne_nil (n : Nat) : natRepr n ≠ [] := by
  rcases natRepr_shape n with h | ⟨d, tail, _, _, h⟩ <;> simp [h]

theorem digitsVal_natRepr (n : Nat) : digitsVal (natRepr n) = n := by
  by_cases hn : n = 0
  · simp [natRepr, hn, digitsVal]
  · rw [natRepr, if_neg hn]; exact natToDigitsGo_val n n le_rfl

/-! ## Lemmas about the primitive readers -/

theorem takeWhile_all_append (p : Char → Bool) (xs rest : List Char)
    (h1 : ∀ c ∈ xs, p c = true) (h2 : ∀ c, rest.head? = some c → p c = false) :
    (xs ++ rest).takeWhile p = xs ∧ (xs ++ rest).dropWhile p = rest := by
  induction xs with
  | nil =>
    simp only [List.nil_append]
    cases rest with
    | nil => simp
    | cons c t =>
      have := h2 c (by simp)
      simp [List.takeWhile_cons, List.dropWhile_cons, this]
  | cons x xs ih =>
    have hx := h1 x (by simp)
    have ih' := ih (fun c hc => h1 c (by simp [hc]))
    simp [List.takeWhile_cons, List.dropWhile_cons, hx, ih'.1, ih'.2]

theorem readNat_natRepr (n : Nat) (rest : List Char)
    (h2 : ∀ c, rest.head? = some c → Char.isDigit c = false) :
    readNat (natRepr n ++ rest) = some (n, rest) := by
  obtain ⟨htake, hdrop⟩ := takeWhile_all_append Char.isDigit (natRepr n) rest
    (natRepr_all_digits n) h2
  have hguard : ((natRepr n).head? == some '0' && (natRepr n).length != 1) = false := by
    rcases natRepr_shape n with h | ⟨d, tail, h10, h0, h⟩
    · simp [h]
    · have hne : digitChar d ≠ '0' := (digitChar_facts d h10).2.2.2.2.2 h0
      simp [h, hne]
  rw [readNat]
  simp only [htake, hdrop]
  rw [if_neg (by simp [natRepr_ne_nil n]), if_neg (by simp [hguard]), digitsVal_natRepr]

/-- Conditions on the input following a printed number: the next character
(if any) is not a digit and not a fraction/exponent marker. -/
def NumBoundary (rest : List Char) : Prop :=
  ∀ c, rest.head? = some c →
    Char.isDigit c = false ∧ c ≠ '.' ∧ c ≠ 'e' ∧ c ≠ 'E'

theorem numTermOk_of_boundary (rest : List Char) (h : NumBoundary rest) :
    numTermOk rest = true := by
  cases rest with
  | nil => rfl
  | cons c t =>
    obtain ⟨_, h2, h3, h4⟩ := h c rfl
    simp [numTermOk, h2, h3, h4]

theorem skipWs_cons (c : Char) (cs : List Char) (h : isWsChar c = false) :
    skipWs (c :: cs) = c :: cs := by
  simp [skipWs, List.dropWhile_cons, h]

theorem readTVal_print (t : Int) (rest : List Char)
    (h1 : -(2 ^ 63) ≤ t) (h2 : t < 2 ^ 63) (hb : NumBoundary rest) :
    readTVal (intRepr t ++ rest) = some (t, rest) := by
  have hdig : ∀ c, rest.head? = some c → Char.isDigit c = false :=
    fun c hc => (hb c hc).1
  have hterm := numTermOk_of_boundary rest hb
  by_cases ht : t < 0
  · have hws : skipWs (intRepr t ++ rest) = '-' :: (natRepr t.natAbs ++ rest) := by
      have hrepr : intRepr t ++ rest = '-' :: (natRepr t.natAbs ++ rest) := by
        simp [intRepr, if_pos ht]
      rw [hrepr]
      exact skipWs_cons _ _ (by decide)
    rw [readTVal, hws]
    simp only [List.head?_cons, List.tail_cons, if_pos rfl,
      readNat_natRepr t.natAbs rest hdig]
    rw [if_pos (show (numTermOk rest && decide (t.natAbs ≤ 2 ^ 63)) = true by
      simp only [hterm, Bool.true_and, decide_eq_true_eq]; omega)]
    have hv : -(t.natAbs : Int) = t := by omega
    rw [hv]
    simp
  · have hne : (natRepr t.toNat).head? ≠ some '-' ∧
        (∀ c l, natRepr t.toNat = c :: l → isWsChar c = false) := by
      rcases natRepr_shape t.toNat with hsh | ⟨d, tail, h10, h0, hsh⟩
      · rw [hsh]
        exact ⟨by decide, by intro c l hc; cases hc; decide⟩
      · rw [hsh]
        have hf := digitChar_facts d h10
        exact ⟨by simp [hf.2.2.2.1], by intro c l hc; cases hc; exact hf.2.2.1⟩
    obtain ⟨a, as, hcons⟩ : ∃ a as, natRepr t.toNat = a :: as := by
      cases hh : natRepr t.toNat with
      | nil => exact absurd hh (natRepr_ne_nil _)
      | cons a as => exact ⟨a, as, rfl⟩
    have hws : skipWs (intRepr t ++ rest) = natRepr t.toNat ++ rest := by
      have hrepr : intRepr t = natRepr t.toNat := by simp [intRepr, if_neg ht]
      rw [hrepr, hcons, List.cons_append]
      exact skipWs_cons _ _ (hne.2 a as hcons)
    have hhead : (natRepr t.toNat ++ rest).head? ≠ some '-' := by
      rw [hcons, List.cons_append, List.head?_cons]
      rw [hcons, List.head?_cons] at hne
      exact hne.1
    rw [readTVal, hws, if_neg hhead]
    simp only [readNat_natRepr t.toNat rest hdig]
    rw [if_pos (show (numTermOk rest && decide (t.toNat < 2 ^ 63)) = true by
      simp only [hterm, Bool.true_and, decide_eq_true_eq]; omega)]
    have hv : ((t.toNat : Int)) = t := by omega
    rw [hv]

theorem readRVal_print (r : Nat) (rest : List Char)
    (hr : r < 2 ^ 64) (hb : NumBoundary rest) :
    readRVal (natRepr r ++ rest) = some (r, rest) := by
  have hdig : ∀ c, rest.head? = some c → Char.isDigit c = false :=
    fun c hc => (hb c hc).1
  have hterm := numTermOk_of_boundary rest hb
  have hws : skipWs (natRepr r ++ rest) = natRepr r ++ rest := by
    rcases natRepr_shape r with hsh | ⟨d, tail, h10, _, hsh⟩
    · rw [hsh]
      exact skipWs_cons _ _ (by decide)
    · rw [hsh, List.cons_append]
      exact skipWs_cons _ _ (digitChar_facts d h10).2.2.1
  rw [readRVal, hws]
  simp only [readNat_natRepr r rest hdig]
  rw [if_pos (show (numTermOk rest && decide (r < 2 ^ 64)) = true by
    simp only [hterm, Bool.true_and, decide_eq_true_eq]; omega)]

theorem readField_t (t : Int) (rest : List Char)
    (h1 : -(2 ^ 63) ≤ t) (h2 : t < 2 ^ 63) (hb : NumBoundary rest) :
    readField ('"' :: 't' :: '"' :: ':' :: (intRepr t ++ rest)) =
      some (.t t, rest) := by
  have hkey : readFieldKey ('"' :: 't' :: '"' :: ':' :: (intRepr t ++ rest)) =
      some (['t'], ':' :: (intRepr t ++ rest)) := rfl
  have hcolon : readColon (':' :: (intRepr t ++ rest)) = some (intRepr t ++ rest) := rfl
  simp only [readField, hkey, hcolon, if_true]
  simp only [readTVal_print t rest h1 h2 hb]

theorem readField_r (r : Nat) (rest : List Char)
    (hr : r < 2 ^ 64) (hb : NumBoundary rest) :
    readField ('"' :: 'r' :: '"' :: ':' :: (natRepr r ++ rest)) =
      some (.r r, rest) := by
  have hkey : readFieldKey ('"' :: 'r' :: '"' :: ':' :: (natRepr r ++ rest)) =
      some (['r'], ':' :: (natRepr r ++ rest)) := rfl
  have hcolon : readColon (':' :: (natRepr r ++ rest)) = some (natRepr r ++ rest) := rfl
  simp only [readField, hkey, hcolon, if_true]
  simp only [readRVal_print r rest hr hb]
  rw [if_neg (by decide)]

/-- Forward round trip of the key codec: parsing the printed form of any
key within the i64/u64 ranges gives back exactly that key. -/
theorem uuidParse_uuidToString (u : Uuid)
    (h1 : -(2 ^ 63) ≤ u.timestamp) (h2 : u.timestamp < 2 ^ 63) (h3 : u.random < 2 ^ 64) :
    uuidParse (uuidToString u) = some u := by
  obtain ⟨t, r⟩ := u
  simp only at h1 h2 h3
  show uuidParseChars (uuidToStringChars ⟨t, r⟩) = some ⟨t, r⟩
  have hb1 : NumBoundary (',' :: '"' :: 'r' :: '"' :: ':' :: (natRepr r ++ ['\x7d'])) := by
    intro c hc
    simp at hc
    subst hc
    decide
  have hb2 : NumBoundary ['\x7d'] := by
    intro c hc
    simp at hc
    subst hc
    decide
  have hws1 : ∀ l : List Char, skipWs ('\x7b' :: l) = '\x7b' :: l :=
    fun l => skipWs_cons _ _ (by decide)
  have hws2 : ∀ l : List Char, skipWs (',' :: l) = ',' :: l :=
    fun l => skipWs_cons _ _ (by decide)
  have hws3 : ∀ l : List Char, skipWs ('\x7d' :: l) = '\x7d' :: l :=
    fun l => skipWs_cons _ _ (by decide)
  simp only [uuidToStringChars, uuidParseChars, hws1]
  rw [readField_t t _ h1 h2 hb1]
  simp only [hws2]
  rw [readField_r r ['\x7d'] h3 hb2]
  simp only [hws3]
  rfl

/-! ## Keys of the secondary store never parse under the primary codec -/

/-- Characters serialised verbatim inside a JSON string literal. -/
def plainChar (c : Char) : Bool := !(c == '"' || c == '\\' || decide (c.toNat < 32))

theorem escChar_plain (c : Char) (h : plainChar c = true) : escChar c = [c] := by
  simp only [plainChar, Bool.not_eq_true', Bool.or_eq_false_iff, beq_eq_false_iff_ne,
    ne_eq, decide_eq_false_iff_not, not_lt] at h
  rw [escChar, if_neg h.1.1, if_neg h.1.2, if_neg (by omega)]

theorem escChar_not_plain (c : Char) (h : plainChar c = false) :
    ∃ tail, escChar c = '\\' :: tail := by
  rw [escChar]
  split
  · exact ⟨_, rfl⟩
  · split
    · exact ⟨_, rfl⟩
    · split
      · split
        · exact ⟨_, rfl⟩
        · split
          · exact ⟨_, rfl⟩
          · split
            · exact ⟨_, rfl⟩
            · split
              · exact ⟨_, rfl⟩
              · split
                · exact ⟨_, rfl⟩
                · exact ⟨_, rfl⟩
      · exfalso
        simp only [plainChar, Bool.not_eq_false', Bool.or_eq_true_iff, beq_iff_eq,
          decide_eq_true_eq] at h
        rcases h with (h | h) | h <;> simp_all

theorem readKeyChars_escList (xs : List Char) (rest : List Char) :
    readKeyChars (escList xs ++ '"' :: rest) =
      if xs.all plainChar then some (xs, rest) else none := by
  induction xs with
  | nil =>
    simp only [escList, List.map_nil, List.flatten_nil, List.nil_append, List.all_nil, if_true]
    rfl
  | cons c xs ih =>
    have hesc : escList (c :: xs) = escChar c ++ escList xs := by
      simp [escList]
    by_cases hc : plainChar c = true
    · have hplain : plainChar c = true := hc
      have hq : ¬(c = '"') := by
        intro h; subst h; simp [plainChar] at hplain
      have hbs : ¬(c = '\\') := by
        intro h; subst h; simp [plainChar] at hplain
      rw [hesc, escChar_plain c hc, List.singleton_append, List.cons_append]
      rw [readKeyChars, if_neg hq, if_neg hbs, ih]
      by_cases hall : xs.all plainChar = true
      · simp [hall, hplain]
      · simp only [Bool.not_eq_true] at hall
        simp [hall, hplain]
    · simp only [Bool.not_eq_true] at hc
      obtain ⟨tail, htail⟩ := escChar_not_plain c hc
      rw [hesc, htail, List.cons_append, List.cons_append]
      rw [readKeyChars, if_neg (by decide), if_pos rfl]
      simp [hc]

theorem readTVal_quote (l : List Char) : readTVal ('"' :: l) = none := rfl

theorem readRVal_quote (l : List Char) : readRVal ('"' :: l) = none := rfl

/-- Keys emitted by the cookie store's save never parse under the primary
key codec: every value in the serialised map is a JSON string, while the
codec requires integer values for its two fields (and rejects any other
field). -/
theorem uuidParse_cookieSave (m : SessState) : uuidParse (cookieSave m) = none := by
  cases m with
  | nil => rfl
  | cons p rest =>
    obtain ⟨k, v⟩ := p
    show uuidParseChars (cookieSaveChars ((k, v) :: rest)) = none
    obtain ⟨z, hz⟩ : ∃ z,
        List.intercalate [','] (((k, v) :: rest).map cookiePair) =
          cookiePair (k, v) ++ z := by
      rw [List.map_cons]
      cases rest.map cookiePair with
      | nil => exact ⟨[], by simp [List.intercalate, List.intersperse]⟩
      | cons y ys =>
        refine ⟨[','] ++ (List.intersperse [','] (y :: ys)).flatten, ?_⟩
        simp [List.intercalate, List.intersperse]
    have hshape : cookieSaveChars ((k, v) :: rest) =
        '\x7b' :: ('"' :: (escList k.data ++
          '"' :: ':' :: '"' :: (escList v.data ++ '"' :: (z ++ ['\x7d'])))) := by
      rw [cookieSaveChars, hz]
      simp [cookiePair, jsonStringLit, List.append_assoc]
    have hws1 : ∀ l : List Char, skipWs ('\x7b' :: l) = '\x7b' :: l :=
      fun l => skipWs_cons _ _ (by decide)
    rw [hshape]
    simp only [uuidParseChars, hws1]
    have hkeyread := readKeyChars_escList k.data
      (':' :: '"' :: (escList v.data ++ '"' :: (z ++ ['\x7d'])))
    have hfk : readFieldKey ('"' :: (escList k.data ++
        '"' :: ':' :: '"' :: (escList v.data ++ '"' :: (z ++ ['\x7d'])))) =
        if k.data.all plainChar then
          some (k.data, ':' :: '"' :: (escList v.data ++ '"' :: (z ++ ['\x7d'])))
        else none := by
      rw [readFieldKey, skipWs_cons _ _ (by decide)]
      rw [show escList k.data ++ '"' :: ':' :: '"' :: (escList v.data ++ '"' :: (z ++ ['\x7d'])) =
        escList k.data ++ '"' :: (':' :: '"' :: (escList v.data ++ '"' :: (z ++ ['\x7d']))) from rfl]
      exact hkeyread
    by_cases hall : k.data.all plainChar = true
    · rw [if_pos hall] at hfk
      have hcolon : readColon (':' :: '"' :: (escList v.data ++ '"' :: (z ++ ['\x7d']))) =
          some ('"' :: (escList v.data ++ '"' :: (z ++ ['\x7d']))) := rfl
      have hfield : readField ('"' :: (escList k.data ++
          '"' :: ':' :: '"' :: (escList v.data ++ '"' :: (z ++ ['\x7d'])))) = none := by
        simp only [readField, hfk, hcolon]
        by_cases hkt : k.data = ['t']
        · simp [hkt, readTVal_quote]
        · by_cases hkr : k.data = ['r']
          · simp [hkt, hkr, readRVal_quote]
          · simp [hkt, hkr]
      simp [hfield]
    · rw [if_neg hall] at hfk
      have hfield : readField ('"' :: (escList k.data ++
          '"' :: ':' :: '"' :: (escList v.data ++ '"' :: (z ++ ['\x7d'])))) = none := by
        simp only [readField, hfk]
      simp [hfield]

/-! ## Lemmas about the sessions table -/

theorem dbFind_append_some (s : DbState) (u : Uuid) (r row : SessionRow)
    (h : dbFind s u = some r) : dbFind (s ++ [row]) u = some r := by
  induction s with
  | nil => simp [dbFind, List.find?] at h
  | cons a t ih =>
    simp only [dbFind, List.cons_append, List.find?] at h ⊢
    cases hid : (a.id == u) with
    | true => rw [hid] at h; exact h
    | false => rw [hid] at h; exact ih h

theorem dbFind_append_none (s : DbState) (u : Uuid) (row : SessionRow)
    (h : dbFind (s ++ [row]) u = none) : dbFind s u = none := by
  cases hf : dbFind s u with
  | none => rfl
  | some r => rw [dbFind_append_some s u r row hf] at h; cases h

theorem dbFind_append_self (s : DbState) (u : Uuid) (row : SessionRow)
    (h : dbFind s u = none) (hid : row.id = u) : dbFind (s ++ [row]) u = some row := by
  induction s with
  | nil => simp [dbFind, List.find?, hid]
  | cons a t ih =>
    simp only [dbFind, List.cons_append, List.find?] at h ⊢
    cases hid' : (a.id == u) with
    | true => rw [hid'] at h; simp at h
    | false => rw [hid'] at h; exact ih h

/-! ## Lemmas about sequences of saves -/

/-- Range conditions on the observed clock and random values of a save
call: the timestamp is within the i64 millisecond range, the random value
within u64. -/
abbrev SaveInputOk (x : Int × Nat × SessState × Nat) : Prop :=
  -(2 ^ 63) ≤ x.1 ∧ x.1 < 2 ^ 63 ∧ x.2.1 < 2 ^ 64

theorem runSaves_keys (l : List (Int × Nat × SessState × Nat)) : ∀ s : DbState,
    (∀ x ∈ l, SaveInputOk x) →
    ∀ k ∈ (runSaves s l).2, ∃ u, uuidParse k = some u ∧ dbFind s u = none := by
  induction l with
  | nil => intro s _ k hk; simp [runSaves] at hk
  | cons x rest ih =>
    obtain ⟨now, rand, m, ttl⟩ := x
    intro s hrange k hk
    have hx : SaveInputOk (now, rand, m, ttl) := hrange _ (by simp)
    have hrest : ∀ y ∈ rest, SaveInputOk y := fun y hy => hrange y (by simp [hy])
    cases hf : dbFind s ⟨now, rand⟩ with
    | some r =>
      rw [runSaves] at hk
      simp only [save, hf] at hk
      exact ih s hrest k hk
    | none =>
      rw [runSaves] at hk
      simp only [save, hf] at hk
      rcases List.mem_cons.mp hk with hk | hk
      · subst hk
        exact ⟨⟨now, rand⟩,
          uuidParse_uuidToString ⟨now, rand⟩ hx.1 hx.2.1 hx.2.2, hf⟩
      · obtain ⟨u', hp, hnone⟩ :=
          ih (s ++ [⟨⟨now, rand⟩, now, now + (ttl : Int), m⟩]) hrest k hk
        exact ⟨u', hp, dbFind_append_none s u' _ hnone⟩

theorem runSaves_pairwise (l : List (Int × Nat × SessState × Nat)) : ∀ s : DbState,
    (∀ x ∈ l, SaveInputOk x) →
    ((runSaves s l).2).Pairwise (· ≠ ·) := by
  induction l with
  | nil => intro s _; simp [runSaves]
  | cons x rest ih =>
    obtain ⟨now, rand, m, ttl⟩ := x
    intro s hrange
    have hx : SaveInputOk (now, rand, m, ttl) := hrange _ (by simp)
    have hrest : ∀ y ∈ rest, SaveInputOk y := fun y hy => hrange y (by simp [hy])
    cases hf : dbFind s ⟨now, rand⟩ with
    | some r =>
      rw [runSaves]
      simp only [save, hf]
      exact ih s hrest
    | none =>
      rw [runSaves]
      simp only [save, hf]
      rw [List.pairwise_cons]
      refine ⟨?_, ih _ hrest⟩
      intro k hk heq
      obtain ⟨u', hp, hnone⟩ :=
        runSaves_keys rest (s ++ [⟨⟨now, rand⟩, now, now + (ttl : Int), m⟩]) hrest k hk
      rw [← heq, uuidParse_uuidToString ⟨now, rand⟩ hx.1 hx.2.1 hx.2.2] at hp
      have hu : u' = ⟨now, rand⟩ := by
        injection hp with hp'
        exact hp'.symm
      rw [hu, dbFind_append_self s ⟨now, rand⟩ _ hf rfl] at hnone
      cases hnone

/-! ## General facts about clean_database -/

theorem sqlLt_text_int (a : String) (b : Int) : sqlLt (.text a) (.int b) = false := rfl

/-- clean_database never deletes anything: its WHERE clause compares a
TEXT value with an INTEGER value, which SQLite orders TEXT-above-INTEGER
regardless of content, so the predicate is false on every row; the call
returns 0 on a nonempty table and fails with RowNotFound on an empty one. -/
theorem cleanDatabase_never_deletes (s : DbState) (now : Int) :
    cleanDatabase s now = if s.isEmpty then (s, .error .rowNotFound) else (s, .ok 0) := by
  have hfilter :
      s.filter (fun r => !(sqlLt (strftimeSecondsText r.expires) (unixepochVal now))) = s :=
    List.filter_eq_self.mpr (fun a _ => rfl)
  by_cases he : s.isEmpty = true
  · simp [cleanDatabase, hfilter, he]
  · simp [cleanDatabase, hfilter, he]

/-! ## Concrete stores used as witnesses -/

/-- Secondary store holding nothing. -/
def secEmpty : SecondaryStore := ⟨fun _ => .ok none⟩

/-- Secondary store holding one legacy record under key L1. -/
def secL1 : SecondaryStore :=
  ⟨fun k => if k = "L1" then .ok (some [("sqlite", "false")]) else .ok none⟩

/-! ## The claims -/

/-- C1: an update through the shim on a key the primary codec fails to
parse, when the secondary store holds a record for that key, succeeds,
writes the caller-supplied new data as a fresh record in the primary
store, and returns a new primary-format key (parseable by the codec)
distinct from the old key; loading the returned key yields the new data. -/
theorem claim_C1_shim_update_migrates (sec : SecondaryStore) (s : DbState)
    (now now2 : Int) (rand : Nat) (kold : String) (oldSt newSt : SessState) (ttl : Nat)
    (hk : uuidParse kold = none)
    (hsec : sec.load kold = .ok (some oldSt))
    (hfresh : dbFind s ⟨now, rand⟩ = none)
    (ht1 : -(2 ^ 63) ≤ now) (ht2 : now < 2 ^ 63) (hr : rand < 2 ^ 64)
    (hlive : ¬(now + (ttl : Int) < now2)) :
    shimUpdate sec s now rand kold newSt ttl =
      (s ++ [⟨⟨now, rand⟩, now, now + (ttl : Int), newSt⟩], .ok (uuidToString ⟨now, rand⟩)) ∧
    uuidParse (uuidToString ⟨now, rand⟩) = some ⟨now, rand⟩ ∧
    uuidToString ⟨now, rand⟩ ≠ kold ∧
    shimLoad sec (s ++ [⟨⟨now, rand⟩, now, now + (ttl : Int), newSt⟩]) now2
        (uuidToString ⟨now, rand⟩) =
      (s ++ [⟨⟨now, rand⟩, now, now + (ttl : Int), newSt⟩], .ok (some newSt)) := by
  have hparse := uuidParse_uuidToString ⟨now, rand⟩ ht1 ht2 hr
  refine ⟨?_, hparse, ?_, ?_⟩
  · simp only [shimUpdate, hk, legacyMigrate, hsec, save, hfresh]
  · intro heq
    rw [heq, hk] at hparse
    cases hparse
  · simp only [shimLoad, hparse, load,
      dbFind_append_self s ⟨now, rand⟩ ⟨⟨now, rand⟩, now, now + (ttl : Int), newSt⟩ hfresh rfl]
    rw [if_neg hlive]

/-- C1 witness: migrating the concrete legacy key L1 over an empty primary
store. -/
theorem claim_C1_shim_update_migrates_witness :
    shimUpdate secL1 [] 0 5 "L1" [("new", "data")] 3600000 =
      ([⟨⟨0, 5⟩, 0, 3600000, [("new", "data")]⟩], .ok (uuidToString ⟨0, 5⟩)) ∧
    uuidParse (uuidToString ⟨0, 5⟩) = some ⟨0, 5⟩ ∧
    uuidToString ⟨0, 5⟩ ≠ "L1" ∧
    shimLoad secL1 [⟨⟨0, 5⟩, 0, 3600000, [("new", "data")]⟩] 1000 (uuidToString ⟨0, 5⟩) =
      ([⟨⟨0, 5⟩, 0, 3600000, [("new", "data")]⟩], .ok (some [("new", "data")])) :=
  claim_C1_shim_update_migrates secL1 [] 0 1000 5 "L1" [("sqlite", "false")]
    [("new", "data")] 3600000 rfl rfl rfl (by decide) (by decide) (by decide) (by decide)

/-- C2: an update through the shim on a key the primary codec fails to
parse, when the secondary store has no record for that key, fails hard
with the migration-inconsistency error and creates no new session. -/
theorem claim_C2_shim_update_missing_record (sec : SecondaryStore) (s : DbState)
    (now : Int) (rand : Nat) (key : String) (st : SessState) (ttl : Nat)
    (hk : uuidParse key = none) (hsec : sec.load key = .ok none) :
    shimUpdate sec s now rand key st ttl = (s, .error .migrationInconsistency) := by
  simp only [shimUpdate, hk, legacyMigrate, hsec]

/-- C2 witness: a syntactically legacy-shaped key with no record behind
it. -/
theorem claim_C2_shim_update_missing_record_witness :
    shimUpdate secEmpty [] 0 0 "L1" [("a", "b")] 1000 =
      ([], .error .migrationInconsistency) :=
  claim_C2_shim_update_missing_record secEmpty [] 0 0 "L1" [("a", "b")] 1000 rfl rfl

/-- C3: a load that finds a row whose expires is strictly before now
deletes that row in the same operation and returns success-with-None, and
a load can only return data from a row that is not expired. -/
theorem claim_C3_load_expired_deletes (s : DbState) (now : Int) (key : String)
    (u : Uuid) (row : SessionRow)
    (hp : uuidParse key = some u) (hf : dbFind s u = some row) :
    (row.expires < now → load s now key = (dbDeleteId s u, .ok none)) ∧
    (∀ s' d, load s now key = (s', .ok (some d)) →
      ¬(row.expires < now) ∧ d = row.data ∧ s' = s) := by
  constructor
  · intro hexp
    simp only [load, hp, hf, if_pos hexp]
  · intro s' d hload
    simp only [load, hp, hf] at hload
    by_cases hexp : row.expires < now
    · rw [if_pos hexp] at hload
      simp at hload
    · rw [if_neg hexp] at hload
      simp only [Prod.mk.injEq, Except.ok.injEq, Option.some.injEq] at hload
      exact ⟨hexp, hload.2.symm, hload.1.symm⟩

/-- C3 witness: a concrete expired row is dropped by load. -/
theorem claim_C3_load_expired_deletes_witness :
    load [⟨⟨0, 0⟩, 0, 0, [("a", "b")]⟩] 60000 (uuidToString ⟨0, 0⟩) =
      (dbDeleteId [⟨⟨0, 0⟩, 0, 0, [("a", "b")]⟩] ⟨0, 0⟩, .ok none) :=
  (claim_C3_load_expired_deletes [⟨⟨0, 0⟩, 0, 0, [("a", "b")]⟩] 60000
    (uuidToString ⟨0, 0⟩) ⟨0, 0⟩ ⟨⟨0, 0⟩, 0, 0, [("a", "b")]⟩ (by decide) rfl).1
    (by decide)

/-- C4 (code bug): the claim says clean_database deletes exactly the rows
whose expires is strictly in the past and returns the number removed.  In
the code the WHERE clause compares the TEXT result of strftime with the
INTEGER result of unixepoch, and SQLite orders every INTEGER below every
TEXT, so the predicate never holds: an expired row (expires = 0, i.e.
the epoch, with now = 60000 ms) survives the sweep and the call returns
0; moreover on an empty table the changes() fetch finds no row and the
call errors instead of returning 0. -/
theorem claim_C4_clean_database_bug :
    (⟨⟨0, 0⟩, 0, 0, []⟩ : SessionRow).expires < 60000 ∧
    cleanDatabase [⟨⟨0, 0⟩, 0, 0, []⟩] 60000 = ([⟨⟨0, 0⟩, 0, 0, []⟩], .ok 0) ∧
    cleanDatabase [] 0 = ([], .error .rowNotFound) :=
  ⟨by decide, rfl, rfl⟩

/-- C5: every shim operation delegates to the primary store exactly when
the primary codec parses the key and takes the secondary-store path
otherwise; and every key the cookie store's save can produce fails the
primary codec's parse, so the two ownership classes are mutually
exclusive. -/
theorem claim_C5_routing_and_exclusivity :
    (∀ sec s now key, (uuidParse key).isSome →
      shimLoad sec s now key = load s now key) ∧
    (∀ sec s now rand key st ttl, (uuidParse key).isSome →
      shimUpdate sec s now rand key st ttl = update s now key st ttl) ∧
    (∀ sec s now key ttl, (uuidParse key).isSome →
      shimUpdateTtl sec s now key ttl = updateTtl s now key ttl) ∧
    (∀ sec s key, (uuidParse key).isSome →
      shimDelete sec s key = delete s key) ∧
    (∀ sec s now key, uuidParse key = none →
      shimLoad sec s now key = (s, sec.load key)) ∧
    (∀ sec s now rand key st ttl, uuidParse key = none →
      shimUpdate sec s now rand key st ttl = legacyMigrate sec s now rand key st ttl) ∧
    (∀ sec s now key ttl, uuidParse key = none →
      shimUpdateTtl sec s now key ttl = (s, .ok ())) ∧
    (∀ sec s key, uuidParse key = none →
      shimDelete sec s key = (s, .ok ())) ∧
    (∀ m, uuidParse (cookieSave m) = none) := by
  refine ⟨?_, ?_, ?_, ?_, ?_, ?_, ?_, ?_, uuidParse_cookieSave⟩
  · intro sec s now key h
    obtain ⟨u, hu⟩ := Option.isSome_iff_exists.mp h
    simp [shimLoad, hu]
  · intro sec s now rand key st ttl h
    obtain ⟨u, hu⟩ := Option.isSome_iff_exists.mp h
    simp [shimUpdate, hu]
  · intro sec s now key ttl h
    obtain ⟨u, hu⟩ := Option.isSome_iff_exists.mp h
    simp [shimUpdateTtl, hu]
  · intro sec s key h
    obtain ⟨u, hu⟩ := Option.isSome_iff_exists.mp h
    simp [shimDelete, hu]
  · intro sec s now key h
    simp [shimLoad, h]
  · intro sec s now rand key st ttl h
    simp [shimUpdate, h]
  · intro sec s now key ttl h
    simp [shimUpdateTtl, h]
  · intro sec s key h
    simp [shimDelete, h]

/-- C5 witness: delegation on a parsing key, the no-op on a legacy key,
and exclusivity on a concrete cookie key. -/
theorem claim_C5_routing_and_exclusivity_witness :
    shimLoad secEmpty [] 0 (uuidToString ⟨0, 0⟩) = load [] 0 (uuidToString ⟨0, 0⟩) ∧
    shimUpdateTtl secEmpty [] 0 "L1" 5 = ([], .ok ()) ∧
    uuidParse (cookieSave [("sqlite", "false")]) = none :=
  ⟨claim_C5_routing_and_exclusivity.1 secEmpty [] 0 (uuidToString ⟨0, 0⟩) (by decide),
   claim_C5_routing_and_exclusivity.2.2.2.2.2.2.1 secEmpty [] 0 "L1" 5 rfl,
   claim_C5_routing_and_exclusivity.2.2.2.2.2.2.2.2 [("sqlite", "false")]⟩

/-- C6 counterexample: parse and to_string are not mutually inverse in
either direction.  Print after parse: the string with the two fields in
the opposite order is accepted by parse, but printing the parsed key
yields the canonical field order, not the original string.  Parse after
print: a key whose timestamp has a sub-millisecond component (here half a
millisecond past the epoch) prints to the truncated millisecond count, and
parsing that yields the truncated key, not the original. -/
theorem claim_C6_codec_counterexample :
    (uuidSrcParse "\x7b\"r\":0,\"t\":0\x7d" = some ⟨0, 0⟩ ∧
      uuidSrcToString ⟨0, 0⟩ ≠ "\x7b\"r\":0,\"t\":0\x7d") ∧
    (uuidSrcParse (uuidSrcToString ⟨500000, 0⟩) = some ⟨0, 0⟩ ∧
      (⟨500000, 0⟩ : UuidSrc) ≠ ⟨0, 0⟩) := by
  exact ⟨⟨rfl, by decide⟩, rfl, by decide⟩

/-- C6 amended: the round trip is exact only at the codec's millisecond
granularity.  For every key whose millisecond count is within the i64
range and whose random component is within u64, parsing its printed form
returns the key with the timestamp truncated to whole milliseconds; this
is the original key exactly when its timestamp carries no sub-millisecond
part, as is the case for every key string the durable store stores or
returns.  The print-after-parse direction fails, see the counterexample. -/
theorem claim_C6_roundtrip_amended (u : UuidSrc)
    (h1 : -(2 ^ 63) ≤ uuidSrcMillis u) (h2 : uuidSrcMillis u < 2 ^ 63)
    (h3 : u.random < 2 ^ 64) :
    uuidSrcParse (uuidSrcToString u) = some ⟨uuidSrcMillis u * 1000000, u.random⟩ ∧
    (u.timestampNanos % 1000000 = 0 → uuidSrcParse (uuidSrcToString u) = some u) := by
  have h := uuidParse_uuidToString ⟨uuidSrcMillis u, u.random⟩ h1 h2 h3
  have hbase : uuidSrcParse (uuidSrcToString u) =
      some ⟨uuidSrcMillis u * 1000000, u.random⟩ := by
    rw [uuidSrcToString, uuidSrcParse, h, Option.map_some']
  refine ⟨hbase, fun hal => ?_⟩
  rw [hbase]
  obtain ⟨n, r⟩ := u
  have hn : uuidSrcMillis ⟨n, r⟩ * 1000000 = n := by
    simp only [uuidSrcMillis] at hal ⊢
    omega
  rw [hn]

/-- C6 witness: the truncating round trip at a concrete sub-millisecond
key, and the exact round trip at a concrete millisecond-aligned key with
a negative timestamp. -/
theorem claim_C6_roundtrip_amended_witness :
    uuidSrcParse (uuidSrcToString ⟨500000, 7⟩) = some ⟨0, 7⟩ ∧
    uuidSrcParse (uuidSrcToString ⟨-5000000, 7⟩) = some ⟨-5000000, 7⟩ :=
  ⟨(claim_C6_roundtrip_amended ⟨500000, 7⟩ (by decide) (by decide) (by decide)).1,
   (claim_C6_roundtrip_amended ⟨-5000000, 7⟩ (by decide) (by decide) (by decide)).2
     (by decide)⟩

/-- C7: loading the key returned by save before the ttl has elapsed
returns exactly the saved mapping. -/
theorem claim_C7_save_then_load (s : DbState) (now now2 : Int) (rand : Nat)
    (m : SessState) (ttl : Nat)
    (hfresh : dbFind s ⟨now, rand⟩ = none) (_httl : 0 < ttl)
    (ht1 : -(2 ^ 63) ≤ now) (ht2 : now < 2 ^ 63) (hr : rand < 2 ^ 64)
    (hbefore : now2 < now + (ttl : Int)) :
    save s now rand m ttl =
      (s ++ [⟨⟨now, rand⟩, now, now + (ttl : Int), m⟩], .ok (uuidToString ⟨now, rand⟩)) ∧
    load (s ++ [⟨⟨now, rand⟩, now, now + (ttl : Int), m⟩]) now2 (uuidToString ⟨now, rand⟩) =
      (s ++ [⟨⟨now, rand⟩, now, now + (ttl : Int), m⟩], .ok (some m)) := by
  have hparse := uuidParse_uuidToString ⟨now, rand⟩ ht1 ht2 hr
  constructor
  · simp only [save, hfresh]
  · simp only [load, hparse,
      dbFind_append_self s ⟨now, rand⟩ ⟨⟨now, rand⟩, now, now + (ttl : Int), m⟩ hfresh rfl]
    rw [if_neg (show ¬(now + (ttl : Int) < now2) by omega)]

/-- C7 witness: save then load of a concrete mapping, read before the ttl
elapses. -/
theorem claim_C7_save_then_load_witness :
    save [] 0 3 [("a", "b")] 1000 =
      ([⟨⟨0, 3⟩, 0, 1000, [("a", "b")]⟩], .ok (uuidToString ⟨0, 3⟩)) ∧
    load [⟨⟨0, 3⟩, 0, 1000, [("a", "b")]⟩] 500 (uuidToString ⟨0, 3⟩) =
      ([⟨⟨0, 3⟩, 0, 1000, [("a", "b")]⟩], .ok (some [("a", "b")])) :=
  claim_C7_save_then_load [] 0 500 3 [("a", "b")] 1000 rfl (by decide) (by decide)
    (by decide) (by decide) (by decide)

/-- C8: the keys returned by a sequence of successful saves are pairwise
distinct, and a successful save returns a key whose identifier was not in
the store before the call (and is in it afterwards). -/
theorem claim_C8_save_keys_unique (s : DbState) (l : List (Int × Nat × SessState × Nat))
    (hrange : ∀ x ∈ l, SaveInputOk x) :
    ((runSaves s l).2).Pairwise (· ≠ ·) ∧
    (∀ s₀ : DbState, ∀ now : Int, ∀ rand : Nat, ∀ m : SessState, ∀ ttl : Nat,
      ∀ s' : DbState, ∀ k : String, save s₀ now rand m ttl = (s', .ok k) →
      k = uuidToString ⟨now, rand⟩ ∧ dbFind s₀ ⟨now, rand⟩ = none ∧
      dbFind s' ⟨now, rand⟩ = some ⟨⟨now, rand⟩, now, now + (ttl : Int), m⟩) := by
  refine ⟨runSaves_pairwise l s hrange, ?_⟩
  intro s₀ now rand m ttl s' k hsave
  cases hf : dbFind s₀ ⟨now, rand⟩ with
  | some r =>
    simp only [save, hf] at hsave
    simp at hsave
  | none =>
    simp only [save, hf, Prod.mk.injEq, Except.ok.injEq] at hsave
    obtain ⟨hs', hk⟩ := hsave
    refine ⟨hk.symm, rfl, ?_⟩
    rw [← hs']
    exact dbFind_append_self s₀ ⟨now, rand⟩ _ hf rfl

/-- C8 witness: two saves in the same millisecond with different random
values produce distinct keys, and a concrete successful save's key was
fresh. -/
theorem claim_C8_save_keys_unique_witness :
    ((runSaves [] [((0 : Int), (0 : Nat), ([] : SessState), (1000 : Nat)),
        ((0 : Int), (1 : Nat), ([] : SessState), (1000 : Nat))]).2).Pairwise (· ≠ ·) ∧
    (uuidToString ⟨0, 0⟩ = uuidToString ⟨0, 0⟩ ∧ dbFind [] ⟨0, 0⟩ = none ∧
      dbFind [⟨⟨0, 0⟩, 0, 1000, []⟩] ⟨0, 0⟩ = some ⟨⟨0, 0⟩, 0, 1000, []⟩) :=
  ⟨(claim_C8_save_keys_unique [] _ (by decide)).1,
   (claim_C8_save_keys_unique [] [] (by decide)).2 [] 0 0 [] 1000
     [⟨⟨0, 0⟩, 0, 1000, []⟩] (uuidToString ⟨0, 0⟩) rfl⟩

/-- C9: shim update_ttl and delete on a key the primary codec fails to
parse both succeed and leave the primary store untouched (the secondary
store is never touched by these paths at all). -/
theorem claim_C9_legacy_noop (sec : SecondaryStore) (s : DbState) (now : Int)
    (key : String) (ttl : Nat) (hk : uuidParse key = none) :
    shimUpdateTtl sec s now key ttl = (s, .ok ()) ∧
    shimDelete sec s key = (s, .ok ()) := by
  constructor
  · simp [shimUpdateTtl, hk]
  · simp [shimDelete, hk]

/-- C9 witness: the no-ops on a concrete legacy key. -/
theorem claim_C9_legacy_noop_witness :
    shimUpdateTtl secEmpty [⟨⟨0, 0⟩, 0, 9, []⟩] 0 "L1" 5 = ([⟨⟨0, 0⟩, 0, 9, []⟩], .ok ()) ∧
    shimDelete secEmpty [⟨⟨0, 0⟩, 0, 9, []⟩] "L1" = ([⟨⟨0, 0⟩, 0, 9, []⟩], .ok ()) :=
  claim_C9_legacy_noop secEmpty [⟨⟨0, 0⟩, 0, 9, []⟩] 0 "L1" 5 rfl

/-- C10: when a shim update routed to the legacy path returns an error
(secondary load failed or found nothing), the primary store's state is
unchanged: the migration write happens only after the existence check
succeeds. -/
theorem claim_C10_failed_migration_keeps_primary (sec : SecondaryStore) (s : DbState)
    (now : Int) (rand : Nat) (key : String) (st : SessState) (ttl : Nat)
    (hk : uuidParse key = none) (e : UpdateErr)
    (herr : (shimUpdate sec s now rand key st ttl).2 = .error e) :
    (shimUpdate sec s now rand key st ttl).1 = s := by
  simp only [shimUpdate, hk, legacyMigrate] at herr ⊢
  cases hsec : sec.load key with
  | error el => simp [hsec]
  | ok o =>
    cases o with
    | none => simp [hsec]
    | some old =>
      simp only [hsec] at herr ⊢
      cases hf : dbFind s ⟨now, rand⟩ with
      | some r => simp [save, hf]
      | none =>
        simp only [save, hf] at herr
        simp at herr

/-- C10 witness: a failed migration (no legacy record) leaves the primary
store as it was. -/
theorem claim_C10_failed_migration_keeps_primary_witness :
    (shimUpdate secEmpty [⟨⟨0, 0⟩, 0, 9, []⟩] 0 0 "L1" [] 1).1 = [⟨⟨0, 0⟩, 0, 9, []⟩] :=
  claim_C10_failed_migration_keeps_primary secEmpty [⟨⟨0, 0⟩, 0, 9, []⟩] 0 0 "L1" [] 1
    rfl .migrationInconsistency rfl

end ActixSessionSqlite
